import Mathlib

/-!
Verification development for the funnel-chart renderer.

The embedding covers `drawChart.ts` (the wrap-based engine: `annotateData`,
`wrapTextToWidth`, `writeStepName`, `writeStats`, the `ChartContext` text
writers and the `drawChart` orchestrator) and the `validateData` checker of
the data-input module.

Modelling conventions:
* JS strings are lists of characters (`Txt := List Char`).
* JS numbers are rationals (`ℚ`); JS division is total rational division
  (so `0 / 0` is `0` here where JS produces `NaN`, noted where relevant).
* The stateful drawing surface is modelled as an emitted list of draw
  operations; its text-measurement capability is an explicit parameter
  `m : ℚ → Txt → ℚ` taking the font size and the text.
-/

/-- JS strings modelled as their character lists. -/
abbrev Txt := List Char

/-- Coerce a Lean string literal to the character-list model. -/
def str (s : String) : Txt := s.data

/-- Helper for `splitOnSpace`; `cur` is the reversed current piece. -/
def splitOnSpaceAux : Txt → Txt → List Txt
  | [], cur => [cur.reverse]
  | c :: rest, cur =>
    if c = ' ' then cur.reverse :: splitOnSpaceAux rest []
    else splitOnSpaceAux rest (c :: cur)

/-- Mirrors JS `text.split(" ")`: splits on every single space character,
producing empty pieces for leading, trailing and doubled spaces, and
yielding `[""]` on the empty string. -/
def splitOnSpace (t : Txt) : List Txt := splitOnSpaceAux t []

/-- Join a list of texts with the separator `sep` between consecutive
elements (JS `Array.prototype.join`). -/
def joinWith (sep : Txt) : List Txt → Txt
  | [] => []
  | [l] => l
  | l :: l2 :: rest => l ++ sep ++ joinWith sep (l2 :: rest)

/-- Result of `wrapTextToWidth`. -/
structure WrapResult where
  hasHorizontalOverflow : Bool
  lines : List Txt
deriving DecidableEq

/-- Loop state of `wrapTextToWidth`: completed lines, the line being built
(`null` in the source is `none`), and the overflow flag. -/
structure WrapState where
  lines : List Txt
  currentLine : Option Txt
  hasHorizontalOverflow : Bool
deriving DecidableEq

/-- `ChartContext.measureTextWidth(text, fontSize)` for a list of lines:
the maximum single-line measured width (JS `Math.max` over the lines; the
renderer never measures an empty list, for which JS would give `-Infinity`
and this model gives `0`). -/
def measureTextWidth (m : ℚ → Txt → ℚ) (lines : List Txt) (fontSize : ℚ) : ℚ :=
  ((lines.map (m fontSize)).max?).getD 0

/-- One iteration of the `words.forEach` loop in `wrapTextToWidth`. -/
def wrapStep (m : ℚ → Txt → ℚ) (fontSize width : ℚ) (st : WrapState) (word : Txt) :
    WrapState :=
  let currentLineWithWord :=
    match st.currentLine with
    | none => word
    | some l => l ++ ' ' :: word
  let currentLineWidth := measureTextWidth m [currentLineWithWord] fontSize
  if currentLineWidth > width then
    match st.currentLine with
    | none =>
      -- this word alone has pushed us over the width
      { lines := st.lines ++ [word], currentLine := none,
        hasHorizontalOverflow := true }
    | some l =>
      { lines := st.lines ++ [l], currentLine := some word,
        hasHorizontalOverflow :=
          st.hasHorizontalOverflow
            || decide (measureTextWidth m [word] fontSize > width) }
  else
    { st with currentLine := some currentLineWithWord }

/-- `wrapTextToWidth(chartCtx, text, fontSize, width)`: greedy word wrap of
`text` to `width`, reporting hard overflow. -/
def wrapTextToWidth (m : ℚ → Txt → ℚ) (text : Txt) (fontSize width : ℚ) :
    WrapResult :=
  let words := splitOnSpace text
  let final := words.foldl (wrapStep m fontSize width) ⟨[], none, false⟩
  { hasHorizontalOverflow := final.hasHorizontalOverflow,
    lines := final.lines ++ final.currentLine.toList }

/-- `DataPoint` from `FunnelDataInput`: `"blank"` or a step. -/
inductive DataPoint where
  | blank
  | step (name : Txt) (count : ℚ)
deriving DecidableEq

/-- `AnnotatedDataPoint` from `drawChart.ts`. -/
inductive AnnotatedDataPoint where
  | blank
  | point (name : Txt) (count : ℚ) (absoluteProportion : ℚ)
      (relativeProportion : Option ℚ)
deriving DecidableEq

/-- The `data.map` closure of `annotateData`, with the two mutable
`firstStepCount` / `preceedingStepCount` variables made explicit. -/
def annotateDataAux (first preceeding : Option ℚ) :
    List DataPoint → List AnnotatedDataPoint
  | [] => []
  | .blank :: rest => .blank :: annotateDataAux first preceeding rest
  | .step name count :: rest =>
    let f := first.getD count
    let absoluteProportion := count / f
    let relativeProportion := preceeding.map (fun p => count / p)
    .point name count absoluteProportion relativeProportion
      :: annotateDataAux (some f) (some count) rest

/-- `annotateData(data)` from `drawChart.ts`. -/
def annotateData (data : List DataPoint) : List AnnotatedDataPoint :=
  annotateDataAux none none data

/-- The counts of the steps of a sequence, read in order, ignoring blanks. -/
def stepCounts (data : List DataPoint) : List ℚ :=
  data.filterMap fun p =>
    match p with
    | .blank => none
    | .step _ c => some c

/-- The running `lastCount` after a list of points has been traversed
(the count of the last step, or the accumulator if the list has no step). -/
def lastCountAfter (last : Option ℚ) : List DataPoint → Option ℚ
  | [] => last
  | .blank :: rest => lastCountAfter last rest
  | .step _ c :: rest => lastCountAfter (some c) rest

/-- The validation errors of `validateData`, identified by the index of the
offending step; `errorMessage` renders the message strings of the source. -/
inductive ValidationError where
  | negative (i : ℕ)
  | exceedsPrevious (i : ℕ)
deriving DecidableEq

/-- Decimal rendering of a natural number, for the interpolated indices. -/
def natToText (n : ℕ) : Txt := Nat.toDigits 10 n

/-- The template strings returned by `validateData`. -/
def errorMessage : ValidationError → Txt
  | .negative i =>
    str r"step count at index " ++ natToText i ++ str r" is negative"
  | .exceedsPrevious i =>
    str r"step count at index " ++ natToText i
      ++ str r" is greater than the previous step count"

/-- The loop of `validateData`, with the running index `i` and the mutable
`lastCount` made explicit. -/
def validateDataAux (last : Option ℚ) (i : ℕ) :
    List DataPoint → Option ValidationError
  | [] => none
  | .blank :: rest => validateDataAux last (i + 1) rest
  | .step _ c :: rest =>
    if c < 0 then some (.negative i)
    else
      match last with
      | some l =>
        if c > l then some (.exceedsPrevious i)
        else validateDataAux (some c) (i + 1) rest
      | none => validateDataAux (some c) (i + 1) rest

/-- `validateData(data)` from the data-input module: `none` is the source's
`null`, and `some e` carries the index whose message `errorMessage e` the
source returns. -/
def validateData (data : List DataPoint) : Option ValidationError :=
  validateDataAux none 0 data

/-- A point on the surface. -/
structure Point where
  x : ℚ
  y : ℚ
deriving DecidableEq

/-- A rectangle on the surface. -/
structure Rect where
  topLeftCorner : Point
  width : ℚ
  height : ℚ
deriving DecidableEq

/-- Fill styles used by the renderer: `"white"`, `"black"`, or the bar
gradient colour; the external `linear-gradient` library is abstracted by
recording the normalised gradient input. -/
inductive Color where
  | white
  | black
  | gradient (v : ℚ)
deriving DecidableEq

/-- Canvas text alignment values used by the renderer. -/
inductive TextAlign where
  | left
  | right
  | center
deriving DecidableEq

/-- `textPadding` from `drawChart.ts`. -/
def textPadding : ℚ := 4

/-- `betweenTextPadding` from `drawChart.ts`. -/
def betweenTextPadding : ℚ := 24

/-- `getColor(absoluteProportion, gradientBase)`. -/
def getColor (absoluteProportion gradientBase : ℚ) : Color :=
  .gradient (max ((absoluteProportion - gradientBase) / (1 - gradientBase)) 0)

/-- `measureHeightOfLines(numberOfLines, fontSize)`:
`numberOfLines * fontSize + (numberOfLines - 1) * textPadding`. -/
def measureHeightOfLines (numberOfLines : ℕ) (fontSize : ℚ) : ℚ :=
  (numberOfLines : ℚ) * fontSize + ((numberOfLines : ℚ) - 1) * textPadding

/-- The draw operations emitted to the surface: a filled rectangle, or one
line of text at a position with the current font size, fill style and
alignment (the baseline is always `"top"`). -/
inductive DrawOp where
  | fillRect (rect : Rect) (color : Color)
  | fillText (line : Txt) (pos : Point) (fontSize : ℚ) (color : Color)
      (align : TextAlign)
deriving DecidableEq

/-- `TextParameters` of the second drawChart variant. -/
structure TextParameters where
  fontSize : ℚ
  color : Color
  textAlign : TextAlign
deriving DecidableEq

/-- List map with the element index, starting from `i` (the
`forEach((line, index) => ...)` pattern). -/
def mapIdxFrom {α β : Type} (f : ℕ → α → β) : ℕ → List α → List β
  | _, [] => []
  | i, a :: rest => f i a :: mapIdxFrom f (i + 1) rest

/-- `ChartContext.writeText(position, text, { fontSize, color, textAlign })`:
emits one `fillText` per line, the block vertically centred on
`position.y`, with `lineHeight = fontSize + textPadding`. -/
def writeText (pos : Point) (lines : List Txt) (p : TextParameters) :
    List DrawOp :=
  let lineHeight := p.fontSize + textPadding
  let totalHeight := measureHeightOfLines lines.length p.fontSize
  let topOfFirstLine := pos.y - totalHeight / 2
  mapIdxFrom
    (fun index line =>
      .fillText line ⟨pos.x, topOfFirstLine + (index : ℚ) * lineHeight⟩
        p.fontSize p.color p.textAlign)
    0 lines

/-- `writeCenterText`. -/
def writeCenterText (rect : Rect) (lines : List Txt) (fontSize : ℚ) :
    List DrawOp :=
  writeText
    ⟨rect.topLeftCorner.x + rect.width / 2, rect.topLeftCorner.y + rect.height / 2⟩
    lines ⟨fontSize, .white, .center⟩

/-- `writeInnerLeftText`. -/
def writeInnerLeftText (rect : Rect) (lines : List Txt) (fontSize : ℚ) :
    List DrawOp :=
  writeText
    ⟨rect.topLeftCorner.x + textPadding, rect.topLeftCorner.y + rect.height / 2⟩
    lines ⟨fontSize, .white, .left⟩

/-- `writeOuterLeftText`. -/
def writeOuterLeftText (rect : Rect) (lines : List Txt) (fontSize : ℚ) :
    List DrawOp :=
  writeText
    ⟨rect.topLeftCorner.x - textPadding, rect.topLeftCorner.y + rect.height / 2⟩
    lines ⟨fontSize, .black, .right⟩

/-- `writeInnerRightText`. -/
def writeInnerRightText (rect : Rect) (lines : List Txt) (fontSize : ℚ) :
    List DrawOp :=
  writeText
    ⟨rect.topLeftCorner.x + rect.width - textPadding,
      rect.topLeftCorner.y + rect.height / 2⟩
    lines ⟨fontSize, .white, .right⟩

/-- `writeOuterRightText`. -/
def writeOuterRightText (rect : Rect) (lines : List Txt) (fontSize : ℚ) :
    List DrawOp :=
  writeText
    ⟨rect.topLeftCorner.x + rect.width + textPadding,
      rect.topLeftCorner.y + rect.height / 2⟩
    lines ⟨fontSize, .black, .left⟩

/-- The inside / outside space budgets handed to the placement helpers. -/
structure Spacing where
  inside : ℚ
  outside : ℚ
deriving DecidableEq

/-- The disqualifying condition of `writeStepName`: the inside wrapping has
hard overflow while the outside one does not, or the inside wrapping has
more than 2 lines and the outside wrapping strictly fewer. -/
def stepNameUsesOutside (wrappedInside wrappedOutside : WrapResult) : Prop :=
  (wrappedInside.hasHorizontalOverflow = true
      ∧ wrappedOutside.hasHorizontalOverflow = false)
    ∨ (2 < wrappedInside.lines.length
        ∧ wrappedOutside.lines.length < wrappedInside.lines.length)

instance (wi wo : WrapResult) : Decidable (stepNameUsesOutside wi wo) := by
  unfold stepNameUsesOutside
  infer_instance

/-- `writeStepName(chartCtx, rect, text, spacing)`. -/
def writeStepName (m : ℚ → Txt → ℚ) (rect : Rect) (text : Txt)
    (spacing : Spacing) : List DrawOp :=
  let fontSize : ℚ := 14
  let wrappedInside := wrapTextToWidth m text fontSize spacing.inside
  let wrappedOutside := wrapTextToWidth m text fontSize spacing.outside
  if stepNameUsesOutside wrappedInside wrappedOutside then
    writeOuterLeftText rect wrappedOutside.lines fontSize
  else
    writeInnerLeftText rect wrappedInside.lines fontSize

/-- `writeStats(chartCtx, rect, text, spacing)`: prefers the multi-line
stats block and falls back to a single `" / "`-joined line only when the
block is too tall for the bar and the single line is not too wide; then
places the result inner-right or outer-right. -/
def writeStats (m : ℚ → Txt → ℚ) (rect : Rect) (text : List Txt)
    (spacing : Spacing) : List DrawOp :=
  let fontSize : ℚ := 14
  let joinedText := joinWith (str r" / ") text
  let multilineWidth := measureTextWidth m text fontSize
  let multilineHeight := measureHeightOfLines text.length fontSize
  let singleLineWidth := measureTextWidth m [joinedText] fontSize
  let isSingleLineMode :=
    multilineHeight + 2 * textPadding > rect.height
      ∧ (singleLineWidth ≤ spacing.inside ∨ singleLineWidth ≤ spacing.outside)
  let textToWrite := if isSingleLineMode then [joinedText] else text
  let textWidth := if isSingleLineMode then singleLineWidth else multilineWidth
  if textWidth < spacing.inside ∨ spacing.inside ≥ spacing.outside then
    writeInnerRightText rect textToWrite fontSize
  else
    writeOuterRightText rect textToWrite fontSize

/-- `writeUserCount(chartCtx, rect, text)`. -/
def writeUserCount (rect : Rect) (text : Txt) : List DrawOp :=
  writeCenterText rect [text] 16

/-- JS `Math.round`: round half toward positive infinity. -/
def jsRound (q : ℚ) : ℤ := ⌊q + 1 / 2⌋

/-- Decimal rendering of an integer. -/
def intToText (i : ℤ) : Txt :=
  if i < 0 then '-' :: natToText i.natAbs else natToText i.natAbs

/-- JS number-to-string coercion as used in the label templates; exact for
integral values (the only counts the renderer is exercised with), and a
`num/den` form as a stand-in for non-integral rationals. -/
def ratToText (q : ℚ) : Txt :=
  if q.den = 1 then intToText q.num
  else intToText q.num ++ '/' :: natToText q.den

/-- `` `${count} users` ``. -/
def usersLabelOf (count : ℚ) : Txt := ratToText count ++ str r" users"

/-- The `percentageLabels` array: the absolute percentage, and the relative
percentage when `relativeProportion` is not `null`. -/
def percentageLabelsOf (absoluteProportion : ℚ)
    (relativeProportion : Option ℚ) : List Txt :=
  (intToText (jsRound (absoluteProportion * 100)) ++ str r"% absolute")
    :: (match relativeProportion with
        | none => []
        | some r => [intToText (jsRound (r * 100)) ++ str r"% relative"])

/-- `verticalBarSpacing = height / (data.length - 1 / 4)`. -/
def verticalBarSpacing (height : ℚ) (pointCount : ℕ) : ℚ :=
  height / ((pointCount : ℚ) - 1 / 4)

/-- `barHeight = verticalBarSpacing * (3 / 4)`. -/
def barHeightOf (verticalSpacing : ℚ) : ℚ := verticalSpacing * (3 / 4)

/-- The body of the `annotateData(data).forEach((dataPoint, index) => ...)`
loop of `drawChart`: the draw operations emitted for one data point. -/
def drawBar (m : ℚ → Txt → ℚ) (width vs barHeight gradientBase : ℚ)
    (index : ℕ) (dataPoint : AnnotatedDataPoint) : List DrawOp :=
  match dataPoint with
  | .blank => []
  | .point name count absoluteProportion relativeProportion =>
    let barWidth := width * absoluteProportion
    let padding := (width - barWidth) / 2
    let rect : Rect := ⟨⟨padding, (index : ℚ) * vs⟩, barWidth, barHeight⟩
    let usersLabel := usersLabelOf count
    let percentageLabels :=
      percentageLabelsOf absoluteProportion relativeProportion
    let outsideBarSpace := (width - barWidth) / 2 - 2 * textPadding
    let usersLabelWidth := measureTextWidth m [usersLabel] 16
    if usersLabelWidth + 2 * textPadding > barWidth then
      -- we can't fit the label for the number of users inside the bar,
      -- so we add it to the "stats" section instead
      let spacing : Spacing :=
        ⟨(barWidth - betweenTextPadding) / 2 - textPadding, outsideBarSpace⟩
      DrawOp.fillRect rect (getColor absoluteProportion gradientBase)
        :: (writeStepName m rect name spacing
          ++ writeStats m rect (usersLabel :: percentageLabels) spacing)
    else
      let spacing : Spacing :=
        ⟨(barWidth - usersLabelWidth) / 2 - textPadding - betweenTextPadding,
          outsideBarSpace⟩
      DrawOp.fillRect rect (getColor absoluteProportion gradientBase)
        :: (writeUserCount rect usersLabel
          ++ writeStepName m rect name spacing
          ++ writeStats m rect percentageLabels spacing)

/-- `drawChart(ctx, data, { width, height, gradientBase })`: the full list
of draw operations emitted to the surface. -/
def drawChart (m : ℚ → Txt → ℚ) (data : List DataPoint)
    (width height gradientBase : ℚ) : List DrawOp :=
  let vs := verticalBarSpacing height data.length
  let barHeight := barHeightOf vs
  (mapIdxFrom (fun index p => drawBar m width vs barHeight gradientBase index p)
    0 (annotateData data)).flatten

/-! ## Specification-side definitions used by the theorems -/

/-- A concrete measurement capability for witnesses and counterexamples:
width is the font size times the character count. -/
def lenMeasure : ℚ → Txt → ℚ := fun fontSize t => fontSize * (t.length : ℚ)

/-- The text lines carried by a list of draw operations, in order. -/
def textLinesOf (ops : List DrawOp) : List Txt :=
  ops.filterMap fun op =>
    match op with
    | .fillText line _ _ _ _ => some line
    | _ => none

/-- The space (inside or outside the bar) that the stats text occupies when
rendered as a single line, per the placement rule of `writeStats`. -/
def statsUsedSpace (singleLineWidth : ℚ) (spacing : Spacing) : ℚ :=
  if singleLineWidth < spacing.inside ∨ spacing.inside ≥ spacing.outside then
    spacing.inside
  else spacing.outside

/-- Recursive characterisation of a sequence accepted by the validation
loop when the running `lastCount` is `last`. -/
def validOrder : Option ℚ → List DataPoint → Prop
  | _, [] => True
  | last, .blank :: rest => validOrder last rest
  | last, .step _ c :: rest =>
    0 ≤ c ∧ (∀ l, last = some l → c ≤ l) ∧ validOrder (some c) rest

/-- Specification form of the annotation of one element: a blank passes
through; a step at position `i` gets `absoluteProportion = count / first`
(`first` being the accumulator if set, else the first step count of the
whole sequence) and `relativeProportion = count / preceding` (`preceding`
being the last step count before position `i`, else the accumulator),
blanks never updating either. -/
def annotateSpecPoint (first preceeding : Option ℚ) (data : List DataPoint)
    (i : ℕ) (p : DataPoint) : AnnotatedDataPoint :=
  match p with
  | .blank => .blank
  | .step n c =>
    .point n c (c / first.getD ((stepCounts data).headD c))
      ((lastCountAfter preceeding (data.take i)).map (fun x => c / x))

/-- The text alignment an operation draws with, if it draws text. -/
def opAlign : DrawOp → Option TextAlign
  | .fillRect _ _ => none
  | .fillText _ _ _ _ al => some al

/-- Text drawn inside a bar: the source draws all inside-bar text white and
all outside-bar text black. -/
def isInsideTextOp : DrawOp → Bool
  | .fillText _ _ _ .white _ => true
  | _ => false

/-! ## Lemmas about splitting and joining text -/

theorem splitOnSpaceAux_ne_nil : ∀ (t : Txt) (cur : Txt), splitOnSpaceAux t cur ≠ []
  | [], _ => by simp [splitOnSpaceAux]
  | c :: rest, cur => by
    unfold splitOnSpaceAux
    split
    · simp
    · exact splitOnSpaceAux_ne_nil rest (c :: cur)

theorem splitOnSpace_ne_nil (t : Txt) : splitOnSpace t ≠ [] :=
  splitOnSpaceAux_ne_nil t []

theorem joinWith_cons_of_ne_nil (sep l : Txt) {rest : List Txt} (h : rest ≠ []) :
    joinWith sep (l :: rest) = l ++ sep ++ joinWith sep rest := by
  match rest with
  | [] => exact absurd rfl h
  | l2 :: rest2 => rfl

theorem joinWith_splitOnSpaceAux :
    ∀ (t : Txt) (cur : Txt), joinWith [' '] (splitOnSpaceAux t cur) = cur.reverse ++ t
  | [], cur => by simp [splitOnSpaceAux, joinWith]
  | c :: rest, cur => by
    unfold splitOnSpaceAux
    split
    · rename_i hc
      rw [joinWith_cons_of_ne_nil [' '] cur.reverse (splitOnSpaceAux_ne_nil rest []),
        joinWith_splitOnSpaceAux rest []]
      subst hc
      simp
    · rw [joinWith_splitOnSpaceAux rest (c :: cur)]
      simp

theorem joinWith_splitOnSpace (t : Txt) : joinWith [' '] (splitOnSpace t) = t := by
  simpa using joinWith_splitOnSpaceAux t []

theorem joinWith_merge (sep a b : Txt) :
    ∀ (xs ys : List Txt),
      joinWith sep (xs ++ (a ++ sep ++ b) :: ys) = joinWith sep (xs ++ a :: b :: ys)
  | [], [] => by simp [joinWith]
  | [], y :: ys => by
    rw [List.nil_append, List.nil_append,
      joinWith_cons_of_ne_nil sep _ (by simp : (y :: ys : List Txt) ≠ []),
      joinWith_cons_of_ne_nil sep a (by simp : (b :: y :: ys : List Txt) ≠ []),
      joinWith_cons_of_ne_nil sep b (by simp : (y :: ys : List Txt) ≠ [])]
    simp
  | x :: xs, ys => by
    rw [List.cons_append, List.cons_append,
      joinWith_cons_of_ne_nil sep x (by simp : xs ++ (a ++ sep ++ b) :: ys ≠ []),
      joinWith_cons_of_ne_nil sep x (by simp : xs ++ a :: b :: ys ≠ []),
      joinWith_merge sep a b xs ys]

theorem joinWith_append_of_ne_nil (sep : Txt) :
    ∀ (xs ys : List Txt), xs ≠ [] → ys ≠ [] →
      joinWith sep (xs ++ ys) = joinWith sep xs ++ sep ++ joinWith sep ys
  | [], _, hx, _ => absurd rfl hx
  | [x], ys, _, hy => by
    rw [List.singleton_append, joinWith_cons_of_ne_nil sep x hy]
    rfl
  | x :: x2 :: xs, ys, _, hy => by
    rw [List.cons_append,
      joinWith_cons_of_ne_nil sep x (by simp : (x2 :: xs) ++ ys ≠ []),
      joinWith_cons_of_ne_nil sep x (by simp : (x2 :: xs : List Txt) ≠ []),
      joinWith_append_of_ne_nil sep (x2 :: xs) ys (by simp) hy]
    simp

theorem measureTextWidth_singleton (m : ℚ → Txt → ℚ) (t : Txt) (fs : ℚ) :
    measureTextWidth m [t] fs = m fs t := by
  simp [measureTextWidth]

/-! ## Lemmas about the wrap loop -/


theorem wrapStep_join (m : ℚ → Txt → ℚ) (fs w : ℚ) (st : WrapState) (word : Txt)
    (suffix : List Txt) :
    joinWith [' ']
        ((wrapStep m fs w st word).lines
          ++ (wrapStep m fs w st word).currentLine.toList ++ suffix) =
      joinWith [' '] (st.lines ++ st.currentLine.toList ++ word :: suffix) := by
  obtain ⟨lines, cur, of⟩ := st
  cases cur with
  | none =>
    simp only [wrapStep]
    split
    · simp
    · simp
  | some l =>
    simp only [wrapStep]
    split
    · simp
    · have h1 : l ++ ' ' :: word = l ++ [' '] ++ word := by simp
      have hm := joinWith_merge [' '] l word lines suffix
      simp only [h1]
      simpa using hm

theorem wrapFold_join (m : ℚ → Txt → ℚ) (fs w : ℚ) :
    ∀ (words : List Txt) (st : WrapState),
      joinWith [' ']
          ((List.foldl (wrapStep m fs w) st words).lines
            ++ (List.foldl (wrapStep m fs w) st words).currentLine.toList) =
        joinWith [' '] (st.lines ++ st.currentLine.toList ++ words)
  | [], st => by simp
  | word :: words, st => by
    rw [List.foldl_cons, wrapFold_join m fs w words (wrapStep m fs w st word)]
    exact wrapStep_join m fs w st word words

theorem wrapStep_size (m : ℚ → Txt → ℚ) (fs w : ℚ) (st : WrapState) (word : Txt) :
    1 ≤ (wrapStep m fs w st word).lines.length
        + (wrapStep m fs w st word).currentLine.toList.length := by
  obtain ⟨lines, cur, of⟩ := st
  cases cur with
  | none =>
    simp only [wrapStep]
    split
    · simp
    · simp
  | some l =>
    simp only [wrapStep]
    split
    · simp
    · simp

theorem wrapFold_size (m : ℚ → Txt → ℚ) (fs w : ℚ) :
    ∀ (words : List Txt) (st : WrapState),
      1 ≤ st.lines.length + st.currentLine.toList.length →
      1 ≤ (List.foldl (wrapStep m fs w) st words).lines.length
          + (List.foldl (wrapStep m fs w) st words).currentLine.toList.length
  | [], st, h => by simpa using h
  | word :: words, st, _ => by
    rw [List.foldl_cons]
    exact wrapFold_size m fs w words (wrapStep m fs w st word)
      (wrapStep_size m fs w st word)

theorem wrapStep_overflow (m : ℚ → Txt → ℚ) (fs w : ℚ)
    (hmono : ∀ s t : Txt, m fs t ≤ m fs (s ++ t)) (st : WrapState) (word : Txt) :
    ((wrapStep m fs w st word).hasHorizontalOverflow = true ↔
      (st.hasHorizontalOverflow = true ∨ m fs word > w)) := by
  obtain ⟨lines, cur, of⟩ := st
  cases cur with
  | none =>
    simp only [wrapStep, measureTextWidth_singleton]
    split
    · rename_i hgt
      simpa using Or.inr hgt
    · rename_i hle
      simp only []
      constructor
      · exact fun h => Or.inl h
      · rintro (h | h)
        · exact h
        · exact absurd h hle
  | some l =>
    simp only [wrapStep, measureTextWidth_singleton]
    split
    · rename_i hgt
      simp [measureTextWidth_singleton]
    · rename_i hle
      have hword : ¬ (m fs word > w) := by
        intro hw
        apply hle
        calc w < m fs word := hw
          _ ≤ m fs ((l ++ [' ']) ++ word) := hmono (l ++ [' ']) word
          _ = m fs (l ++ ' ' :: word) := by simp
      simp only []
      constructor
      · exact fun h => Or.inl h
      · rintro (h | h)
        · exact h
        · exact absurd h hword

theorem wrapFold_overflow (m : ℚ → Txt → ℚ) (fs w : ℚ)
    (hmono : ∀ s t : Txt, m fs t ≤ m fs (s ++ t)) :
    ∀ (words : List Txt) (st : WrapState),
      ((List.foldl (wrapStep m fs w) st words).hasHorizontalOverflow = true ↔
        (st.hasHorizontalOverflow = true ∨ ∃ word ∈ words, m fs word > w))
  | [], st => by simp
  | word :: words, st => by
    rw [List.foldl_cons,
      wrapFold_overflow m fs w hmono words (wrapStep m fs w st word),
      wrapStep_overflow m fs w hmono st word]
    constructor
    · rintro ((h | h) | ⟨x, hx, hgt⟩)
      · exact Or.inl h
      · exact Or.inr ⟨word, by simp, h⟩
      · exact Or.inr ⟨x, by simp [hx], hgt⟩
    · rintro (h | ⟨x, hx, hgt⟩)
      · exact Or.inl (Or.inl h)
      · rcases List.mem_cons.mp hx with h1 | h2
        · exact Or.inl (Or.inr (h1 ▸ hgt))
        · exact Or.inr ⟨x, h2, hgt⟩

theorem measure_join_append (m : ℚ → Txt → ℚ) (fs : ℚ)
    (hmono : ∀ s t : Txt, m fs s ≤ m fs (s ++ t)) (xs ys : List Txt)
    (hx : xs ≠ []) :
    m fs (joinWith [' '] xs) ≤ m fs (joinWith [' '] (xs ++ ys)) := by
  cases ys with
  | nil => simp
  | cons y ys =>
    rw [joinWith_append_of_ne_nil [' '] xs (y :: ys) hx (by simp)]
    calc m fs (joinWith [' '] xs)
        ≤ m fs (joinWith [' '] xs ++ ([' '] ++ joinWith [' '] (y :: ys))) :=
          hmono _ _
      _ = m fs (joinWith [' '] xs ++ [' '] ++ joinWith [' '] (y :: ys)) := by
          simp

theorem wrapFold_noSplit (m : ℚ → Txt → ℚ) (fs w : ℚ) :
    ∀ (ws : List Txt) (acc : Txt),
      (∀ p q : List Txt, ws = p ++ q → m fs (joinWith [' '] (acc :: p)) ≤ w) →
      List.foldl (wrapStep m fs w) ⟨[], some acc, false⟩ ws =
        ⟨[], some (joinWith [' '] (acc :: ws)), false⟩
  | [], acc, _ => by simp [joinWith]
  | word :: ws, acc, H => by
    rw [List.foldl_cons]
    have hfit : ¬ (measureTextWidth m [acc ++ ' ' :: word] fs > w) := by
      rw [measureTextWidth_singleton]
      have := H [word] ws rfl
      simp only [joinWith, List.append_assoc, List.singleton_append] at this ⊢
      exact not_lt.mpr this
    have hstep : wrapStep m fs w ⟨[], some acc, false⟩ word =
        ⟨[], some (acc ++ ' ' :: word), false⟩ := by
      simp only [wrapStep]
      rw [if_neg hfit]
    rw [hstep]
    have H2 : ∀ p q : List Txt, ws = p ++ q →
        m fs (joinWith [' '] ((acc ++ ' ' :: word) :: p)) ≤ w := by
      intro p q hpq
      have h1 : acc ++ ' ' :: word = acc ++ [' '] ++ word := by simp
      have hm := joinWith_merge [' '] acc word ([] : List Txt) p
      simp only [List.nil_append] at hm
      rw [h1, hm]
      exact H (word :: p) q (by simp [hpq])
    rw [wrapFold_noSplit m fs w ws (acc ++ ' ' :: word) H2]
    have h1 : acc ++ ' ' :: word = acc ++ [' '] ++ word := by simp
    have hm := joinWith_merge [' '] acc word ([] : List Txt) ws
    simp only [List.nil_append] at hm
    rw [h1, hm]

/-- Claim C3: for every measurement function, input string, font size and
maximum width, joining the lines produced by `wrapTextToWidth` with single
spaces reconstructs the input text exactly. -/
theorem claim_C3_wrap_reconstructs (m : ℚ → Txt → ℚ) (text : Txt)
    (fontSize width : ℚ) :
    joinWith [' '] (wrapTextToWidth m text fontSize width).lines = text := by
  unfold wrapTextToWidth
  simp only []
  rw [wrapFold_join m fontSize width (splitOnSpace text) ⟨[], none, false⟩]
  simpa using joinWith_splitOnSpace text

/-- Claim C10: `wrapTextToWidth` always returns at least one line. -/
theorem claim_C10_wrap_nonempty (m : ℚ → Txt → ℚ) (text : Txt)
    (fontSize width : ℚ) :
    (wrapTextToWidth m text fontSize width).lines ≠ [] := by
  unfold wrapTextToWidth
  simp only []
  intro hcontra
  obtain ⟨word, words, hw⟩ := List.exists_cons_of_ne_nil (splitOnSpace_ne_nil text)
  have hsize := wrapFold_size m fontSize width words
      (wrapStep m fontSize width ⟨[], none, false⟩ word)
      (wrapStep_size m fontSize width ⟨[], none, false⟩ word)
  rw [hw] at hcontra
  rw [List.foldl_cons] at hcontra
  have hlen := congrArg List.length hcontra
  simp only [List.length_append, List.length_nil] at hlen
  omega

/-- Claim C4: `hasHorizontalOverflow` is true iff some individual
space-separated word of the input exceeds the maximum width on its own,
provided the measurement is monotone under appending characters on either
side. -/
theorem claim_C4_overflow_iff (m : ℚ → Txt → ℚ) (text : Txt)
    (fontSize width : ℚ)
    (hmono : ∀ s t : Txt, m fontSize s ≤ m fontSize (s ++ t)
      ∧ m fontSize t ≤ m fontSize (s ++ t)) :
    ((wrapTextToWidth m text fontSize width).hasHorizontalOverflow = true ↔
      ∃ word ∈ splitOnSpace text, m fontSize word > width) := by
  unfold wrapTextToWidth
  simp only []
  rw [wrapFold_overflow m fontSize width (fun s t => (hmono s t).2)
    (splitOnSpace text) ⟨[], none, false⟩]
  simp

theorem claim_C4_witness :
    (∀ s t : Txt, lenMeasure 1 s ≤ lenMeasure 1 (s ++ t)
      ∧ lenMeasure 1 t ≤ lenMeasure 1 (s ++ t))
    ∧ ((wrapTextToWidth lenMeasure (str r"aaaa bb") 1 3).hasHorizontalOverflow = true ↔
        ∃ word ∈ splitOnSpace (str r"aaaa bb"), lenMeasure 1 word > 3) := by
  have hmono : ∀ s t : Txt, lenMeasure 1 s ≤ lenMeasure 1 (s ++ t)
      ∧ lenMeasure 1 t ≤ lenMeasure 1 (s ++ t) := by
    intro s t
    constructor
    · simp [lenMeasure]
    · simp [lenMeasure]
  exact ⟨hmono, claim_C4_overflow_iff lenMeasure (str r"aaaa bb") 1 3 hmono⟩

/-- Claim C8: wrapping text that already fits the width yields exactly one
line equal to the text and no overflow, provided the measurement is monotone
under appending characters. -/
theorem claim_C8_wrap_short (m : ℚ → Txt → ℚ) (text : Txt) (fontSize width : ℚ)
    (hmono : ∀ s t : Txt, m fontSize s ≤ m fontSize (s ++ t))
    (hfits : measureTextWidth m [text] fontSize ≤ width) :
    wrapTextToWidth m text fontSize width = ⟨false, [text]⟩ := by
  rw [measureTextWidth_singleton] at hfits
  obtain ⟨word, words, hw⟩ := List.exists_cons_of_ne_nil (splitOnSpace_ne_nil text)
  have htext : joinWith [' '] (word :: words) = text := by
    rw [← hw]
    exact joinWith_splitOnSpace text
  unfold wrapTextToWidth
  simp only []
  rw [hw, List.foldl_cons]
  have hword : m fontSize word ≤ width := by
    calc m fontSize word = m fontSize (joinWith [' '] [word]) := by simp [joinWith]
      _ ≤ m fontSize (joinWith [' '] ([word] ++ words)) :=
        measure_join_append m fontSize hmono [word] words (by simp)
      _ = m fontSize text := by rw [List.singleton_append, htext]
      _ ≤ width := hfits
  have hstep : wrapStep m fontSize width ⟨[], none, false⟩ word =
      ⟨[], some word, false⟩ := by
    simp only [wrapStep]
    rw [measureTextWidth_singleton, if_neg (not_lt.mpr hword)]
  rw [hstep]
  have H : ∀ p q : List Txt, words = p ++ q →
      m fontSize (joinWith [' '] (word :: p)) ≤ width := by
    intro p q hpq
    calc m fontSize (joinWith [' '] (word :: p))
        ≤ m fontSize (joinWith [' '] ((word :: p) ++ q)) :=
          measure_join_append m fontSize hmono (word :: p) q (by simp)
      _ = m fontSize text := by rw [← htext, hpq]; simp
      _ ≤ width := hfits
  rw [wrapFold_noSplit m fontSize width words word H]
  simp [htext]

/-- Witness for claim C8 at the concrete length measurement. -/
theorem claim_C8_witness :
    (∀ s t : Txt, lenMeasure 14 s ≤ lenMeasure 14 (s ++ t))
    ∧ measureTextWidth lenMeasure [str r"ab cd"] 14 ≤ 70
    ∧ wrapTextToWidth lenMeasure (str r"ab cd") 14 70 = ⟨false, [str r"ab cd"]⟩ := by
  have hmono : ∀ s t : Txt, lenMeasure 14 s ≤ lenMeasure 14 (s ++ t) := by
    intro s t
    simp [lenMeasure]
  have hfits : measureTextWidth lenMeasure [str r"ab cd"] 14 ≤ 70 := by
    rw [measureTextWidth_singleton]
    norm_num [lenMeasure, str]
  exact ⟨hmono, hfits, claim_C8_wrap_short lenMeasure (str r"ab cd") 14 70 hmono hfits⟩

/-! ## Lemmas about the emitted draw operations -/

theorem textLinesOf_mapIdxFrom (g : ℕ → Txt → Point) (fs : ℚ) (c : Color)
    (al : TextAlign) :
    ∀ (i : ℕ) (lines : List Txt),
      textLinesOf
          (mapIdxFrom (fun index line => DrawOp.fillText line (g index line) fs c al)
            i lines) = lines
  | _, [] => rfl
  | i, l :: lines => by
    simp only [mapIdxFrom, textLinesOf, List.filterMap_cons]
    have := textLinesOf_mapIdxFrom g fs c al (i + 1) lines
    simp only [textLinesOf] at this
    simp [this]

theorem textLinesOf_writeText (pos : Point) (lines : List Txt)
    (p : TextParameters) : textLinesOf (writeText pos lines p) = lines := by
  simp only [writeText]
  exact textLinesOf_mapIdxFrom _ p.fontSize p.color p.textAlign 0 lines

theorem mem_mapIdxFrom {α β : Type} (f : ℕ → α → β) :
    ∀ (i : ℕ) (l : List α) (b : β), b ∈ mapIdxFrom f i l →
      ∃ k a, a ∈ l ∧ b = f k a
  | _, [], _, h => by simp [mapIdxFrom] at h
  | i, a :: l, b, h => by
    simp only [mapIdxFrom, List.mem_cons] at h
    rcases h with h | h
    · exact ⟨i, a, by simp, h⟩
    · obtain ⟨k, a2, ha2, hb⟩ := mem_mapIdxFrom f (i + 1) l b h
      exact ⟨k, a2, by simp [ha2], hb⟩

theorem mem_writeText (pos : Point) (lines : List Txt) (p : TextParameters)
    (op : DrawOp) (h : op ∈ writeText pos lines p) :
    ∃ line q, line ∈ lines ∧ op = DrawOp.fillText line q p.fontSize p.color p.textAlign := by
  simp only [writeText] at h
  obtain ⟨k, line, hline, hb⟩ := mem_mapIdxFrom _ 0 lines op h
  exact ⟨line, _, hline, hb⟩

theorem singleLine_fits_iff (s : ℚ) (spacing : Spacing) :
    (s ≤ spacing.inside ∨ s ≤ spacing.outside) ↔
      s ≤ statsUsedSpace s spacing := by
  unfold statsUsedSpace
  split
  · rename_i h
    constructor
    · intro hle
      rcases h with h | h
      · exact le_of_lt h
      · rcases hle with hle | hle
        · exact hle
        · exact le_trans hle h
    · exact fun h2 => Or.inl h2
  · rename_i h
    push_neg at h
    constructor
    · intro hle
      rcases hle with hle | hle
      · exact le_trans hle (le_of_lt h.2)
      · exact hle
    · exact fun h2 => Or.inr h2

/-- Claim C5: `writeStepName` renders the inside-wrapped step name
inner-left (white, left-aligned at `x + textPadding`) unless the inside
wrap has hard overflow while the outside wrap does not, or the inside wrap
has more than 2 lines and the outside wrap strictly fewer; in those cases
it renders the outside-wrapped name outer-left (black, right-aligned at
`x - textPadding`). -/
theorem claim_C5_stepName_placement (m : ℚ → Txt → ℚ) (rect : Rect)
    (text : Txt) (spacing : Spacing) :
    writeStepName m rect text spacing =
      if stepNameUsesOutside (wrapTextToWidth m text 14 spacing.inside)
          (wrapTextToWidth m text 14 spacing.outside) then
        mapIdxFrom
          (fun index line => DrawOp.fillText line
            ⟨rect.topLeftCorner.x - textPadding,
              rect.topLeftCorner.y + rect.height / 2
                - measureHeightOfLines
                    (wrapTextToWidth m text 14 spacing.outside).lines.length 14 / 2
                + (index : ℚ) * (14 + textPadding)⟩
            14 Color.black TextAlign.right)
          0 (wrapTextToWidth m text 14 spacing.outside).lines
      else
        mapIdxFrom
          (fun index line => DrawOp.fillText line
            ⟨rect.topLeftCorner.x + textPadding,
              rect.topLeftCorner.y + rect.height / 2
                - measureHeightOfLines
                    (wrapTextToWidth m text 14 spacing.inside).lines.length 14 / 2
                + (index : ℚ) * (14 + textPadding)⟩
            14 Color.white TextAlign.left)
          0 (wrapTextToWidth m text 14 spacing.inside).lines := by
  simp only [writeStepName, writeOuterLeftText, writeInnerLeftText, writeText]

/-- Claim C6: the stats block is rendered as a single line (the values
joined with `" / "`) iff the multi-line block height exceeds the bar height
plus padding and the single-line rendering's measured width fits within
whichever of the two spaces (inside or outside) the stats are placed in;
otherwise the multi-line rendering is kept. -/
theorem claim_C6_stats_mode (m : ℚ → Txt → ℚ) (rect : Rect)
    (text : List Txt) (spacing : Spacing) :
    textLinesOf (writeStats m rect text spacing) =
      if measureHeightOfLines text.length 14 + 2 * textPadding > rect.height
          ∧ measureTextWidth m [joinWith (str r" / ") text] 14
              ≤ statsUsedSpace
                  (measureTextWidth m [joinWith (str r" / ") text] 14) spacing
      then [joinWith (str r" / ") text]
      else text := by
  simp only [writeStats]
  have hiff :
      (measureHeightOfLines text.length 14 + 2 * textPadding > rect.height
        ∧ (measureTextWidth m [joinWith (str r" / ") text] 14 ≤ spacing.inside
          ∨ measureTextWidth m [joinWith (str r" / ") text] 14 ≤ spacing.outside)) ↔
      (measureHeightOfLines text.length 14 + 2 * textPadding > rect.height
        ∧ measureTextWidth m [joinWith (str r" / ") text] 14
            ≤ statsUsedSpace
                (measureTextWidth m [joinWith (str r" / ") text] 14) spacing) :=
    and_congr_right fun _ =>
      singleLine_fits_iff (measureTextWidth m [joinWith (str r" / ") text] 14) spacing
  split
  · rename_i h
    rw [if_pos (hiff.mp h)]
    split
    · rw [writeInnerRightText, textLinesOf_writeText]
    · rw [writeOuterRightText, textLinesOf_writeText]
  · rename_i h
    rw [if_neg (fun hc => h (hiff.mpr hc))]
    split
    · rw [writeInnerRightText, textLinesOf_writeText]
    · rw [writeOuterRightText, textLinesOf_writeText]

/-- Claim C7: with `verticalSpacing = height / (pointCount - 0.25)` and
`barHeight = verticalSpacing * 0.75`, the bottom edge
`index * verticalSpacing + barHeight` of every bar row stays within the
canvas height, for every positive point count and height. -/
theorem claim_C7_vertical_extent (pointCount : ℕ) (height : ℚ) (index : ℕ)
    (hn : 0 < pointCount) (hh : 0 < height) (hi : index < pointCount) :
    (index : ℚ) * verticalBarSpacing height pointCount
      + barHeightOf (verticalBarSpacing height pointCount) ≤ height := by
  unfold verticalBarSpacing barHeightOf
  have hq : (0:ℚ) < (pointCount : ℚ) - 1/4 := by
    have h1 : (1:ℚ) ≤ (pointCount : ℚ) := by exact_mod_cast hn
    linarith
  have hvs : 0 < height / ((pointCount : ℚ) - 1/4) := div_pos hh hq
  have hile : (index : ℚ) ≤ (pointCount : ℚ) - 1 := by
    have h2 : (index : ℚ) + 1 ≤ (pointCount : ℚ) := by exact_mod_cast hi
    linarith
  have key : ((index : ℚ) + 3/4) * (height / ((pointCount : ℚ) - 1/4))
      ≤ ((pointCount : ℚ) - 1/4) * (height / ((pointCount : ℚ) - 1/4)) := by
    apply mul_le_mul_of_nonneg_right _ (le_of_lt hvs)
    linarith
  have heq : ((pointCount : ℚ) - 1/4) * (height / ((pointCount : ℚ) - 1/4))
      = height := by
    rw [mul_comm]
    exact div_mul_cancel₀ height (ne_of_gt hq)
  calc (index : ℚ) * (height / ((pointCount : ℚ) - 1/4))
        + (height / ((pointCount : ℚ) - 1/4)) * (3/4)
      = ((index : ℚ) + 3/4) * (height / ((pointCount : ℚ) - 1/4)) := by ring
    _ ≤ ((pointCount : ℚ) - 1/4) * (height / ((pointCount : ℚ) - 1/4)) := key
    _ = height := heq

/-- Witness for claim C7: two rows on a 600-pixel canvas; the bottom row's
bottom edge stays within the canvas. -/
theorem claim_C7_witness :
    0 < 2 ∧ (0:ℚ) < 600 ∧ 1 < 2
    ∧ (1 : ℚ) * verticalBarSpacing 600 2 + barHeightOf (verticalBarSpacing 600 2)
        ≤ 600 :=
  ⟨by norm_num, by norm_num, by norm_num,
    claim_C7_vertical_extent 2 600 1 (by norm_num) (by norm_num) (by norm_num)⟩

/-! ## Lemmas about `validateData` -/

theorem validateDataAux_eq_none_iff :
    ∀ (data : List DataPoint) (last : Option ℚ) (i : ℕ),
      validateDataAux last i data = none ↔ validOrder last data
  | [], last, i => by simp [validateDataAux, validOrder]
  | .blank :: rest, last, i => by
    simp only [validateDataAux, validOrder]
    exact validateDataAux_eq_none_iff rest last (i + 1)
  | .step n c :: rest, last, i => by
    simp only [validateDataAux, validOrder]
    by_cases hc : c < 0
    · rw [if_pos hc]
      simp only [reduceCtorEq, false_iff]
      intro hcontra
      exact absurd hcontra.1 (not_le.mpr hc)
    · rw [if_neg hc]
      cases last with
      | none =>
        dsimp only
        rw [validateDataAux_eq_none_iff rest (some c) (i + 1)]
        constructor
        · exact fun h => ⟨not_lt.mp hc, by simp, h⟩
        · exact fun h => h.2.2
      | some l =>
        dsimp only
        by_cases hgt : c > l
        · rw [if_pos hgt]
          simp only [reduceCtorEq, false_iff]
          intro hcontra
          exact absurd (hcontra.2.1 l rfl) (not_le.mpr hgt)
        · rw [if_neg hgt]
          rw [validateDataAux_eq_none_iff rest (some c) (i + 1)]
          constructor
          · intro h
            refine ⟨not_lt.mp hc, ?_, h⟩
            intro l2 hl2
            injection hl2 with hl2
            exact hl2 ▸ not_lt.mp hgt
          · exact fun h => h.2.2

theorem validOrder_iff :
    ∀ (data : List DataPoint) (last : Option ℚ),
      validOrder last data ↔
        ((∀ c ∈ stepCounts data, 0 ≤ c)
          ∧ List.Chain' (fun a b => b ≤ a) (last.toList ++ stepCounts data))
  | [], last => by
    cases last <;> simp [validOrder, stepCounts]
  | .blank :: rest, last => by
    simp only [validOrder, stepCounts, List.filterMap_cons]
    exact validOrder_iff rest last
  | .step n c :: rest, last => by
    simp only [validOrder, stepCounts, List.filterMap_cons]
    rw [validOrder_iff rest (some c)]
    cases last with
    | none =>
      simp only [Option.toList]
      constructor
      · rintro ⟨h0, _, hrest, hchain⟩
        refine ⟨?_, ?_⟩
        · intro x hx
          rcases List.mem_cons.mp hx with h | h
          · exact h ▸ h0
          · exact hrest x h
        · simpa using hchain
      · rintro ⟨hall, hchain⟩
        refine ⟨hall c (List.mem_cons_self _ _), by simp,
          fun x hx => hall x (List.mem_cons_of_mem _ hx), ?_⟩
        simpa using hchain
    | some l =>
      simp only [Option.toList]
      constructor
      · rintro ⟨h0, hle, hrest, hchain⟩
        refine ⟨?_, ?_⟩
        · intro x hx
          rcases List.mem_cons.mp hx with h | h
          · exact h ▸ h0
          · exact hrest x h
        · rw [List.singleton_append, List.chain'_cons]
          refine ⟨hle l rfl, by simpa using hchain⟩
      · rintro ⟨hall, hchain⟩
        rw [List.singleton_append, List.chain'_cons] at hchain
        refine ⟨hall c (List.mem_cons_self _ _), ?_,
          fun x hx => hall x (List.mem_cons_of_mem _ hx), ?_⟩
        · intro l2 hl2
          injection hl2 with hl2
          exact hl2 ▸ hchain.1
        · simpa using hchain.2

theorem validateDataAux_some :
    ∀ (data : List DataPoint) (last : Option ℚ) (i : ℕ) (e : ValidationError),
      validateDataAux last i data = some e →
      ∃ k n c, data.get? k = some (.step n c) ∧
        ((e = .negative (i + k) ∧ c < 0)
          ∨ (e = .exceedsPrevious (i + k)
              ∧ ∃ l, lastCountAfter last (data.take k) = some l ∧ l < c))
  | [], last, i, e => by simp [validateDataAux]
  | .blank :: rest, last, i, e => by
    intro h
    simp only [validateDataAux] at h
    obtain ⟨k, n, c, hget, hdisj⟩ := validateDataAux_some rest last (i + 1) e h
    refine ⟨k + 1, n, c, by simpa using hget, ?_⟩
    have harith : i + 1 + k = i + (k + 1) := by omega
    rw [harith] at hdisj
    have htake : lastCountAfter last ((DataPoint.blank :: rest).take (k + 1))
        = lastCountAfter last (rest.take k) := by
      simp [List.take_succ_cons, lastCountAfter]
    rw [htake]
    exact hdisj
  | .step n c :: rest, last, i, e => by
    intro h
    simp only [validateDataAux] at h
    by_cases hc : c < 0
    · rw [if_pos hc] at h
      injection h with h
      exact ⟨0, n, c, rfl, Or.inl ⟨by rw [← h, Nat.add_zero], hc⟩⟩
    · rw [if_neg hc] at h
      cases last with
      | none =>
        dsimp only at h
        obtain ⟨k, n2, c2, hget, hdisj⟩ :=
          validateDataAux_some rest (some c) (i + 1) e h
        refine ⟨k + 1, n2, c2, by simpa using hget, ?_⟩
        have harith : i + 1 + k = i + (k + 1) := by omega
        rw [harith] at hdisj
        have htake :
            lastCountAfter none ((DataPoint.step n c :: rest).take (k + 1))
              = lastCountAfter (some c) (rest.take k) := by
          simp [List.take_succ_cons, lastCountAfter]
        rw [htake]
        exact hdisj
      | some l =>
        dsimp only at h
        by_cases hgt : c > l
        · rw [if_pos hgt] at h
          injection h with h
          refine ⟨0, n, c, rfl, Or.inr ⟨by rw [← h, Nat.add_zero], l, ?_, hgt⟩⟩
          simp [lastCountAfter]
        · rw [if_neg hgt] at h
          obtain ⟨k, n2, c2, hget, hdisj⟩ :=
            validateDataAux_some rest (some c) (i + 1) e h
          refine ⟨k + 1, n2, c2, by simpa using hget, ?_⟩
          have harith : i + 1 + k = i + (k + 1) := by omega
          rw [harith] at hdisj
          have htake :
              lastCountAfter (some l) ((DataPoint.step n c :: rest).take (k + 1))
                = lastCountAfter (some c) (rest.take k) := by
            simp [List.take_succ_cons, lastCountAfter]
          rw [htake]
          exact hdisj

/-- Claim C9: `validateData` returns `null` iff the step counts, read in
order ignoring blanks, are non-negative and non-increasing; an error
identifies the index of an offending step (negative count, or count
exceeding the nearest preceding step count), with the source's message
template interpolating that index. -/
theorem claim_C9_validateData (data : List DataPoint) :
    (validateData data = none ↔
      ((∀ c ∈ stepCounts data, 0 ≤ c)
        ∧ List.Chain' (fun a b => b ≤ a) (stepCounts data)))
    ∧ (∀ i, validateData data = some (.negative i) →
        (∃ n c, data.get? i = some (.step n c) ∧ c < 0)
        ∧ errorMessage (.negative i)
            = str r"step count at index " ++ natToText i ++ str r" is negative")
    ∧ (∀ i, validateData data = some (.exceedsPrevious i) →
        (∃ n c l, data.get? i = some (.step n c)
          ∧ lastCountAfter none (data.take i) = some l ∧ l < c)
        ∧ errorMessage (.exceedsPrevious i)
            = str r"step count at index " ++ natToText i
              ++ str r" is greater than the previous step count") := by
  refine ⟨?_, ?_, ?_⟩
  · unfold validateData
    rw [validateDataAux_eq_none_iff data none 0, validOrder_iff data none]
    simp [Option.toList]
  · intro i h
    obtain ⟨k, n, c, hget, hdisj⟩ := validateDataAux_some data none 0 _ h
    rcases hdisj with ⟨he, hneg⟩ | ⟨he, _⟩
    · injection he with he
      refine ⟨⟨n, c, ?_, hneg⟩, rfl⟩
      rw [he]
      simpa using hget
    · exact absurd he (by simp)
  · intro i h
    obtain ⟨k, n, c, hget, hdisj⟩ := validateDataAux_some data none 0 _ h
    rcases hdisj with ⟨he, _⟩ | ⟨he, l, hl, hlt⟩
    · exact absurd he (by simp)
    · injection he with he
      refine ⟨⟨n, c, l, ?_, ?_, hlt⟩, rfl⟩
      · rw [he]
        simpa using hget
      · rw [he]
        simpa using hl

/-- Witness for claim C9: a concrete valid funnel is accepted. -/
theorem claim_C9_witness :
    validateData
        [DataPoint.step (str r"a") 100, DataPoint.blank,
          DataPoint.step (str r"b") 80] = none := by
  apply (claim_C9_validateData
    [DataPoint.step (str r"a") 100, DataPoint.blank,
      DataPoint.step (str r"b") 80]).1.mpr
  constructor
  · intro c hc
    simp only [stepCounts, List.filterMap_cons, List.filterMap_nil] at hc
    rcases List.mem_cons.mp hc with h | h
    · rw [h]; norm_num
    · rcases List.mem_cons.mp h with h2 | h2
      · rw [h2]; norm_num
      · simp at h2
  · simp only [stepCounts, List.filterMap_cons, List.filterMap_nil]
    rw [List.chain'_cons]
    refine ⟨by norm_num, by simp⟩

/-! ## Lemmas about `annotateData` -/

theorem annotateSpecPoint_shift_blank (rest : List DataPoint)
    (first preceeding : Option ℚ) (k : ℕ) (a : DataPoint) :
    annotateSpecPoint first preceeding (DataPoint.blank :: rest) (k + 1) a =
      annotateSpecPoint first preceeding rest k a := by
  cases a with
  | blank => rfl
  | step n c =>
    simp [annotateSpecPoint, stepCounts, List.filterMap_cons,
      List.take_succ_cons, lastCountAfter]

theorem annotateSpecPoint_shift_step (n0 : Txt) (c0 : ℚ)
    (rest : List DataPoint) (first preceeding : Option ℚ) (k : ℕ)
    (a : DataPoint) :
    annotateSpecPoint first preceeding (DataPoint.step n0 c0 :: rest) (k + 1) a =
      annotateSpecPoint (some (first.getD c0)) (some c0) rest k a := by
  cases a with
  | blank => rfl
  | step n c =>
    simp only [annotateSpecPoint, stepCounts, List.filterMap_cons,
      List.take_succ_cons, lastCountAfter, List.headD_cons]
    cases first <;> simp

theorem annotateDataAux_get :
    ∀ (data : List DataPoint) (first preceeding : Option ℚ) (i : ℕ),
      (annotateDataAux first preceeding data).get? i =
        (data.get? i).map (annotateSpecPoint first preceeding data i)
  | [], first, preceeding, i => by simp [annotateDataAux]
  | .blank :: rest, first, preceeding, 0 => by
    simp [annotateDataAux, annotateSpecPoint]
  | .blank :: rest, first, preceeding, k + 1 => by
    simp only [annotateDataAux, List.get?_cons_succ]
    rw [annotateDataAux_get rest first preceeding k]
    cases hrest : rest.get? k with
    | none => rfl
    | some a =>
      simp [annotateSpecPoint_shift_blank rest first preceeding k a]
  | .step n c :: rest, first, preceeding, 0 => by
    simp [annotateDataAux, annotateSpecPoint, lastCountAfter, stepCounts,
      List.filterMap_cons]
  | .step n c :: rest, first, preceeding, k + 1 => by
    simp only [annotateDataAux, List.get?_cons_succ]
    rw [annotateDataAux_get rest (some (first.getD c)) (some c) k]
    cases hrest : rest.get? k with
    | none => rfl
    | some a =>
      simp [annotateSpecPoint_shift_step n c rest first preceeding k a]

theorem annotateDataAux_length :
    ∀ (data : List DataPoint) (first preceeding : Option ℚ),
      (annotateDataAux first preceeding data).length = data.length
  | [], _, _ => rfl
  | .blank :: rest, first, preceeding => by
    simp [annotateDataAux, annotateDataAux_length rest first preceeding]
  | .step n c :: rest, first, preceeding => by
    simp [annotateDataAux, annotateDataAux_length rest (some (first.getD c)) (some c)]

theorem lastCountAfter_none_of_empty :
    ∀ (pre : List DataPoint), stepCounts pre = [] → lastCountAfter none pre = none
  | [], _ => rfl
  | .blank :: rest, h => by
    simp only [stepCounts, List.filterMap_cons] at h
    exact lastCountAfter_none_of_empty rest h
  | .step n c :: rest, h => by
    simp [stepCounts, List.filterMap_cons] at h

theorem stepCounts_headD_of_first (data : List DataPoint) (i : ℕ) (n : Txt)
    (c : ℚ) (hget : data.get? i = some (.step n c))
    (hpre : stepCounts (data.take i) = []) : (stepCounts data).headD c = c := by
  have hi : i < data.length := by
    rw [List.get?_eq_getElem?] at hget
    exact (List.getElem?_eq_some.mp hget).1
  have helem : data[i] = DataPoint.step n c := by
    rw [List.get?_eq_getElem?, List.getElem?_eq_getElem hi] at hget
    injection hget
  have hdrop : data.drop i = DataPoint.step n c :: data.drop (i + 1) := by
    rw [List.drop_eq_getElem_cons hi, helem]
  have hsplit := List.take_append_drop i data
  have hsc : stepCounts data = stepCounts (data.take i) ++ stepCounts (data.drop i) := by
    unfold stepCounts
    rw [← List.filterMap_append, hsplit]
  rw [hsc, hpre, hdrop, List.nil_append]
  simp [stepCounts, List.filterMap_cons]

/-- Claim C2 (amended): `annotateData` preserves length and blank
positions; every step keeps its name and count and is annotated with
`absoluteProportion = count / firstStepCount` and `relativeProportion =
count / precedingStepCount` (`null` when there is no preceding step),
blanks never updating the running counters; the first step's
`relativeProportion` is `null` and its `absoluteProportion` is
`count / count`, which equals 1 whenever its count is nonzero (a zero
first count divides by zero instead). -/
theorem claim_C2_annotate (data : List DataPoint) :
    (annotateData data).length = data.length
    ∧ (∀ i, data.get? i = some .blank →
        (annotateData data).get? i = some .blank)
    ∧ (∀ i n c, data.get? i = some (.step n c) →
        (annotateData data).get? i =
          some (.point n c (c / (stepCounts data).headD c)
            ((lastCountAfter none (data.take i)).map (fun x => c / x))))
    ∧ (∀ i n c, data.get? i = some (.step n c) →
        stepCounts (data.take i) = [] →
        (annotateData data).get? i = some (.point n c (c / c) none)
          ∧ (c ≠ 0 → c / c = 1)) := by
  refine ⟨annotateDataAux_length data none none, ?_, ?_, ?_⟩
  · intro i hb
    unfold annotateData
    rw [annotateDataAux_get data none none i, hb]
    rfl
  · intro i n c hs
    unfold annotateData
    rw [annotateDataAux_get data none none i, hs]
    rfl
  · intro i n c hs hpre
    refine ⟨?_, fun hc => div_self hc⟩
    unfold annotateData
    rw [annotateDataAux_get data none none i, hs]
    dsimp only [Option.map, annotateSpecPoint]
    rw [stepCounts_headD_of_first data i n c hs hpre,
      lastCountAfter_none_of_empty (data.take i) hpre]
    rfl

/-- Counterexample for claim C2 as stated: with a single step of count 0,
the source computes `0 / 0` for the first step's absolute proportion (NaN
in JS, 0 in the rational model) — not the claimed "exactly 1". -/
theorem claim_C2_counterexample :
    annotateData [DataPoint.step (str r"a") 0]
        = [AnnotatedDataPoint.point (str r"a") 0 0 none]
    ∧ (0 : ℚ) ≠ 1 := by
  constructor
  · unfold annotateData
    rw [annotateDataAux, annotateDataAux]
    norm_num
  · norm_num

/-- Witness for claim C2 (amended) on the test fixture's data: the step at
index 3 (after a blank) is annotated against the first count 100 and the
preceding count 80. -/
theorem claim_C2_witness :
    (annotateData
        [DataPoint.step (str r"w") 100, DataPoint.step (str r"x") 80,
          DataPoint.blank, DataPoint.step (str r"y") 60]).get? 3 =
      some (AnnotatedDataPoint.point (str r"y") 60 (60 / 100)
        (some (60 / 80))) := by
  have h := (claim_C2_annotate
    [DataPoint.step (str r"w") 100, DataPoint.step (str r"x") 80,
      DataPoint.blank, DataPoint.step (str r"y") 60]).2.2.1 3 (str r"y") 60 rfl
  rw [h]
  norm_num [stepCounts, List.filterMap_cons, lastCountAfter, List.take_succ_cons]

/-! ## Lemmas about `drawBar` / `drawChart` -/

theorem opAlign_writeText (pos : Point) (lines : List Txt)
    (p : TextParameters) (op : DrawOp) (h : op ∈ writeText pos lines p) :
    opAlign op = some p.textAlign := by
  obtain ⟨line, q, _, hop⟩ := mem_writeText pos lines p op h
  rw [hop]
  rfl

theorem writeStepName_not_center (m : ℚ → Txt → ℚ) (rect : Rect) (text : Txt)
    (spacing : Spacing) (op : DrawOp)
    (h : op ∈ writeStepName m rect text spacing) :
    opAlign op ≠ some TextAlign.center := by
  simp only [writeStepName, writeOuterLeftText, writeInnerLeftText] at h
  split at h <;> (rw [opAlign_writeText _ _ _ _ h]; simp)

theorem writeStats_not_center (m : ℚ → Txt → ℚ) (rect : Rect)
    (text : List Txt) (spacing : Spacing) (op : DrawOp)
    (h : op ∈ writeStats m rect text spacing) :
    opAlign op ≠ some TextAlign.center := by
  simp only [writeStats, writeInnerRightText, writeOuterRightText] at h
  split at h <;> split at h <;> (rw [opAlign_writeText _ _ _ _ h]; simp)

/-- The fallback branch of `drawBar`, as an equation: when the count label
does not fit, the bar emits its fill, then the step name and the merged
stats through the generic placement helpers. -/
theorem drawBar_narrow_eq (m : ℚ → Txt → ℚ)
    (width vs barHeight gradientBase : ℚ) (index : ℕ) (name : Txt)
    (count absoluteProportion : ℚ) (relativeProportion : Option ℚ)
    (hnofit : measureTextWidth m [usersLabelOf count] 16 + 2 * textPadding
        > width * absoluteProportion) :
    drawBar m width vs barHeight gradientBase index
        (.point name count absoluteProportion relativeProportion) =
      DrawOp.fillRect
          ⟨⟨(width - width * absoluteProportion) / 2, (index : ℚ) * vs⟩,
            width * absoluteProportion, barHeight⟩
          (getColor absoluteProportion gradientBase)
        :: (writeStepName m
              ⟨⟨(width - width * absoluteProportion) / 2, (index : ℚ) * vs⟩,
                width * absoluteProportion, barHeight⟩
              name
              ⟨(width * absoluteProportion - betweenTextPadding) / 2 - textPadding,
                (width - width * absoluteProportion) / 2 - 2 * textPadding⟩
            ++ writeStats m
              ⟨⟨(width - width * absoluteProportion) / 2, (index : ℚ) * vs⟩,
                width * absoluteProportion, barHeight⟩
              (usersLabelOf count
                :: percentageLabelsOf absoluteProportion relativeProportion)
              ⟨(width * absoluteProportion - betweenTextPadding) / 2 - textPadding,
                (width - width * absoluteProportion) / 2 - 2 * textPadding⟩) := by
  simp only [drawBar]
  rw [if_pos hnofit]

/-- Claim C1 (amended): when the count label (measured at the center font
size 16) plus `2 * textPadding` does not fit in the bar width, `drawChart`
draws no centered count label and merges the count label into the stats
block; the step name and the merged stats are then placed by the generic
`writeStepName` / `writeStats` rules with inside space
`(barWidth - betweenTextPadding) / 2 - textPadding` and outside space the
padding strip, so they may still land inside the bar. -/
theorem claim_C1_narrow_bar (m : ℚ → Txt → ℚ)
    (width vs barHeight gradientBase : ℚ) (index : ℕ) (name : Txt)
    (count absoluteProportion : ℚ) (relativeProportion : Option ℚ)
    (hnofit : measureTextWidth m [usersLabelOf count] 16 + 2 * textPadding
        > width * absoluteProportion) :
    drawBar m width vs barHeight gradientBase index
        (.point name count absoluteProportion relativeProportion) =
      DrawOp.fillRect
          ⟨⟨(width - width * absoluteProportion) / 2, (index : ℚ) * vs⟩,
            width * absoluteProportion, barHeight⟩
          (getColor absoluteProportion gradientBase)
        :: (writeStepName m
              ⟨⟨(width - width * absoluteProportion) / 2, (index : ℚ) * vs⟩,
                width * absoluteProportion, barHeight⟩
              name
              ⟨(width * absoluteProportion - betweenTextPadding) / 2 - textPadding,
                (width - width * absoluteProportion) / 2 - 2 * textPadding⟩
            ++ writeStats m
              ⟨⟨(width - width * absoluteProportion) / 2, (index : ℚ) * vs⟩,
                width * absoluteProportion, barHeight⟩
              (usersLabelOf count
                :: percentageLabelsOf absoluteProportion relativeProportion)
              ⟨(width * absoluteProportion - betweenTextPadding) / 2 - textPadding,
                (width - width * absoluteProportion) / 2 - 2 * textPadding⟩)
    ∧ ∀ op ∈ drawBar m width vs barHeight gradientBase index
        (.point name count absoluteProportion relativeProportion),
        opAlign op ≠ some TextAlign.center := by
  have heq := drawBar_narrow_eq m width vs barHeight gradientBase index name
    count absoluteProportion relativeProportion hnofit
  refine ⟨heq, ?_⟩
  intro op hop
  rw [heq] at hop
  rcases List.mem_cons.mp hop with hfill | hop2
  · rw [hfill]
    simp [opAlign]
  · rcases List.mem_append.mp hop2 with h | h
    · exact writeStepName_not_center _ _ _ _ _ h
    · exact writeStats_not_center _ _ _ _ _ h

/-- Evaluation of the count label for a count of 10. -/
theorem usersLabel_ten : usersLabelOf 10 = str r"10 users" := by
  have hden : (10 : ℚ).den = 1 := by norm_num
  have hnum : (10 : ℚ).num = 10 := by norm_num
  unfold usersLabelOf ratToText
  rw [if_pos hden, hnum]
  decide

theorem writeStepName_inner (m : ℚ → Txt → ℚ) (rect : Rect) (text : Txt)
    (spacing : Spacing)
    (h : ¬ stepNameUsesOutside (wrapTextToWidth m text 14 spacing.inside)
        (wrapTextToWidth m text 14 spacing.outside)) :
    writeStepName m rect text spacing =
      writeInnerLeftText rect (wrapTextToWidth m text 14 spacing.inside).lines 14 := by
  simp only [writeStepName]
  rw [if_neg h]

/-- Witness for claim C1 (amended): a one-step chart whose count label is
wider than the bar draws no centered text. -/
theorem claim_C1_witness :
    (measureTextWidth lenMeasure [usersLabelOf 10] 16 + 2 * textPadding
        > 100 * 1)
    ∧ ∀ op ∈ drawBar lenMeasure 100 800 600 0 0
        (.point (str r"a") 10 1 none),
        opAlign op ≠ some TextAlign.center := by
  have hnofit : measureTextWidth lenMeasure [usersLabelOf 10] 16
      + 2 * textPadding > 100 * 1 := by
    rw [measureTextWidth_singleton, usersLabel_ten]
    norm_num [lenMeasure, str, textPadding]
  exact ⟨hnofit,
    (claim_C1_narrow_bar lenMeasure 100 800 600 0 0 (str r"a") 10 1 none hnofit).2⟩

/-- Counterexample for claim C1 as stated: a one-step chart whose count
label is wider than its bar still places the step name inside the bar
(white, inner-left), because the fallback delegates to the generic
placement helpers instead of forcing outside placement. -/
theorem claim_C1_counterexample :
    (measureTextWidth lenMeasure [usersLabelOf 10] 16 + 2 * textPadding
        > 100 * ((10 : ℚ) / 10))
    ∧ (drawChart lenMeasure [DataPoint.step (str r"a") 10] 100 600 0).any
        isInsideTextOp = true := by
  have hnofit : measureTextWidth lenMeasure [usersLabelOf 10] 16
      + 2 * textPadding > 100 * ((10 : ℚ) / 10) := by
    rw [measureTextWidth_singleton, usersLabel_ten]
    norm_num [lenMeasure, str, textPadding]
  refine ⟨hnofit, ?_⟩
  have h1 : drawChart lenMeasure [DataPoint.step (str r"a") 10] 100 600 0 =
      drawBar lenMeasure 100 (verticalBarSpacing 600 1)
        (barHeightOf (verticalBarSpacing 600 1)) 0 0
        (.point (str r"a") 10 ((10 : ℚ) / 10) none) := by
    simp [drawChart, annotateData, annotateDataAux, mapIdxFrom]
  rw [h1, drawBar_narrow_eq lenMeasure 100 (verticalBarSpacing 600 1)
    (barHeightOf (verticalBarSpacing 600 1)) 0 0 (str r"a") 10
    ((10 : ℚ) / 10) none hnofit]
  have hs : splitOnSpace ['a'] = [['a']] := by decide
  norm_num [writeStepName, stepNameUsesOutside, wrapTextToWidth, hs, wrapStep,
    measureTextWidth, lenMeasure, str, betweenTextPadding, textPadding,
    writeInnerLeftText, writeOuterLeftText, writeText, mapIdxFrom,
    isInsideTextOp, List.any_append, measureHeightOfLines]
